import Mathlib

/-!
Shallow embedding of the Legion hybrid retrieval engine.

The definitions below are translated from the repository sources:
* `src/unnamed/part_005` — the chunking pipeline (`chunkText`, `getEmbeddings`,
  `buildIndex`);
* `src/unnamed/part_003` — the vector store (`cosineSimilarity`, `keywordScore`,
  `search` with hybrid scoring, MMR reranking and result filtering).

JavaScript strings are modelled as `List Char`/`String`; JavaScript numbers
used as cursors and indices are modelled as `ℤ` (they can go negative in
`chunkText`); scores are modelled as `ℝ` (the rational keyword score is
computed exactly in `ℚ` and cast).  The asynchronous `getEmbeddings` boundary
is modelled by passing the outcome of the embedding call — `Except.error e`
for a rejected batch, `Except.ok vectors` for a resolved one — as an explicit
argument to `search`; since `search` in the source contains no `try`/`catch`
around the `await`, a rejected call makes `search` itself reject, which the
model expresses by propagating `Except.error`.
-/

namespace Legion

/-! ### JavaScript string primitives -/

/-- Character class of JavaScript white space (the `\s` regexp class and the
characters removed by `String.prototype.trim`): ASCII white space, NBSP, the
Unicode space separators, the line separators and the BOM. -/
def isJsWs (c : Char) : Bool :=
  c.toNat = 32 || c.toNat = 9 || c.toNat = 10 || c.toNat = 11 || c.toNat = 12 ||
  c.toNat = 13 || c.toNat = 160 || c.toNat = 0x1680 ||
  (0x2000 ≤ c.toNat && c.toNat ≤ 0x200A) ||
  c.toNat = 0x2028 || c.toNat = 0x2029 || c.toNat = 0x202F ||
  c.toNat = 0x205F || c.toNat = 0x3000 || c.toNat = 0xFEFF

/-- Model of `str.lastIndexOf(c, pos)` for a single-character needle: the
largest index `i ≤ min(max(pos, 0), length - 1)` holding `c`, or `-1`.
JavaScript clamps a negative `pos` to `0`, which still allows a match at
index `0`. -/
def jsLastIndexOf (cs : List Char) (c : Char) (pos : ℤ) : ℤ :=
  (List.range cs.length).foldl
    (fun best (i : ℕ) => if (i : ℤ) ≤ max pos 0 ∧ cs.get? i = some c then (i : ℤ) else best)
    (-1)

/-- Model of `str.slice(a, b)`: negative arguments count from the end, both
ends are clamped to `[0, length]`, and an inverted range yields the empty
string. -/
def jsSlice (cs : List Char) (a b : ℤ) : List Char :=
  let len : ℤ := cs.length
  let lo := if a < 0 then max (len + a) 0 else min a len
  let hi := if b < 0 then max (len + b) 0 else min b len
  if lo < hi then (cs.take hi.toNat).drop lo.toNat else []

/-- Model of `str.trim()`: strips JavaScript white space from both ends. -/
def jsTrim (cs : List Char) : List Char :=
  ((cs.dropWhile isJsWs).reverse.dropWhile isJsWs).reverse

/-- Model of `countLines` from `src/unnamed/part_005`:
`(str.match(/\n/g) || []).length`, i.e. the number of newline characters. -/
def countLines (cs : List Char) : ℕ :=
  cs.countP (fun c => c == '\n')

/-- Splitting a string into its newline-separated lines (split at every
newline character).  Used only to state what "total line count" means in the
chunking scenario: the input spans `(splitLinesCL cs).length` lines. -/
def splitLinesCL : List Char → List (List Char)
  | [] => [[]]
  | c :: rest =>
    if c = '\n' then [] :: splitLinesCL rest
    else
      match splitLinesCL rest with
      | [] => [[c]]
      | t :: ts => (c :: t) :: ts

/-- Total line count of a text under the 1-based line numbering convention of
`chunkText`: the number of newline-separated lines (a trailing newline starts
a final empty line). -/
def totalLines (s : String) : ℕ :=
  (splitLinesCL s.data).length

/-! ### Chunker (`chunkText` from `src/unnamed/part_005`)

The `while (start < text.length)` loop is modelled with an explicit fuel
parameter: `none` means the loop has not finished within `fuel` iterations,
`some chunks` means it finished and produced `chunks`. -/

/-- One emitted chunk: trimmed content plus its 1-based line range in the
original text. -/
structure ChunkPiece where
  content : String
  lineStart : ℕ
  lineEnd : ℕ
deriving DecidableEq

/-- One iteration of the `chunkText` loop body at cursor `start`: computes the
snapped window end, the optional emitted chunk, and the next cursor value.
Mirrors lines 29–66 of `src/unnamed/part_005`:
window end `start + size`; if it falls before the end of the text, snap back
to just after the last newline (else the last space) found at or before it,
provided that position is strictly after `start`; trim the slice and emit it
only if non-empty, with line numbers counted on the untrimmed boundaries;
advance to `end - overlap`, forced up to `end` when that would not be below
`end`. -/
def chunkIter (text : List Char) (size overlap start : ℤ) : ℤ × Option ChunkPiece :=
  let len : ℤ := text.length
  let end0 := start + size
  let endPos :=
    if end0 < len then
      let lastNewLine := jsLastIndexOf text '\n' end0
      let lastSpace := jsLastIndexOf text ' ' end0
      if lastNewLine > start then lastNewLine + 1
      else if lastSpace > start then lastSpace + 1
      else end0
    else end0
  let chunkContent := jsTrim (jsSlice text start endPos)
  let piece : Option ChunkPiece :=
    if chunkContent.length > 0 then
      some { content := String.mk chunkContent
             lineStart := countLines (jsSlice text 0 start) + 1
             lineEnd := countLines (jsSlice text 0 endPos) + 1 }
    else none
  let start2 := endPos - overlap
  (if start2 ≥ endPos then endPos else start2, piece)

/-- The `chunkText` loop: iterate `chunkIter` while `start < text.length`,
appending emitted chunks; `none` when `fuel` iterations do not reach
termination. -/
def chunkTextGo (text : List Char) (size overlap : ℤ) :
    ℕ → ℤ → List ChunkPiece → Option (List ChunkPiece)
  | 0, _, _ => none
  | fuel + 1, start, acc =>
    if start < (text.length : ℤ) then
      let st := chunkIter text size overlap start
      chunkTextGo text size overlap fuel st.1 (acc ++ st.2.toList)
    else some acc

/-- Model of `chunkText(text, size, overlap)` from `src/unnamed/part_005`,
run with `fuel` loop iterations available. -/
def chunkText (fuel : ℕ) (text : String) (size overlap : ℤ) : Option (List ChunkPiece) :=
  chunkTextGo text.data size overlap fuel 0 []

/-! ### Keyword score (`keywordScore` from `src/unnamed/part_003`) -/

/-- Model of `query.split(/\s+/)`: the separators are the maximal runs of
white space; a leading or trailing run contributes an empty token, and the
empty string yields one empty token. -/
def jsSplitWs : List Char → List (List Char)
  | [] => [[]]
  | c :: rest =>
    if isJsWs c then
      match rest with
      | [] => [] :: jsSplitWs rest
      | r :: _ => if isJsWs r then jsSplitWs rest else [] :: jsSplitWs rest
    else
      match jsSplitWs rest with
      | [] => [[c]]
      | t :: ts => (c :: t) :: ts

/-- Trailing punctuation class of `keywordScore`: the characters of the
regexp `[?.,!;:"')\]}]` (question mark, period, comma, exclamation mark,
semicolon, colon, double quote, single quote, closing parenthesis, closing
bracket, closing brace). -/
def isTrailPunct (c : Char) : Bool :=
  c == '?' || c == '.' || c == ',' || c == '!' || c == ';' || c == ':' ||
  c.toNat == 34 || c.toNat == 39 || c.toNat == 41 || c.toNat == 93 || c.toNat == 125

/-- Leading punctuation class of `keywordScore`: the characters of the regexp
`[(\[{'"]` (opening parenthesis, opening bracket, opening brace, single
quote, double quote). -/
def isLeadPunct (c : Char) : Bool :=
  c.toNat == 40 || c.toNat == 91 || c.toNat == 123 || c.toNat == 39 || c.toNat == 34

/-- Term cleanup: `t.replace(/[?.,!;:"')\]}]+$/, '').replace(/^[(\[{'"]+/, '')`
removes one maximal trailing run of trailing punctuation, then one maximal
leading run of leading punctuation. -/
def cleanTerm (t : List Char) : List Char :=
  ((t.reverse.dropWhile isTrailPunct).reverse).dropWhile isLeadPunct

/-- ASCII alphanumeric character, as matched case-insensitively by the regexp
`[a-z0-9]` with the `i` flag. -/
def isAsciiAlphaNum (c : Char) : Bool :=
  (97 ≤ c.toNat && c.toNat ≤ 122) || (65 ≤ c.toNat && c.toNat ≤ 90) ||
  (48 ≤ c.toNat && c.toNat ≤ 57)

/-- Term filter of `keywordScore`: drop empty tokens; keep tokens longer than
two characters; keep short tokens only when they contain a character outside
`[a-z0-9]` (so operators such as `==` survive). -/
def keepTerm (t : List Char) : Bool :=
  !t.isEmpty && (decide (t.length > 2) || t.any (fun c => !isAsciiAlphaNum c))

/-- The surviving query terms: lower-case the query, split on white space,
clean each token, and filter.  Models lines 52–65 of `src/unnamed/part_003`. -/
def queryTermsOf (query : List Char) : List (List Char) :=
  ((jsSplitWs (query.map Char.toLower)).map cleanTerm).filter keepTerm

/-- Whether `pat` is a prefix of `t` (character lists, Boolean valued). -/
def startsWithCL : List Char → List Char → Bool
  | [], _ => true
  | _ :: _, [] => false
  | p :: ps, t :: ts => p == t && startsWithCL ps ts

/-- Model of `text.includes(pat)`: substring containment.  The empty pattern
is contained in every text, as in JavaScript. -/
def containsSub : List Char → List Char → Bool
  | [], pat => startsWithCL pat []
  | c :: ts, pat => startsWithCL pat (c :: ts) || containsSub ts pat

/-- Model of `keywordScore(query, text)` from `src/unnamed/part_003`: the
number of surviving query terms (counted with multiplicity, by the source's
`for` loop) contained as substrings in the lower-cased text, divided by the
number of surviving query terms; `0` when no term survives. -/
def keywordScore (query text : String) : ℚ :=
  let queryTerms := queryTermsOf query.data
  let textLower := text.data.map Char.toLower
  if queryTerms.length = 0 then 0
  else
    let matchCount := queryTerms.foldl (fun m t => if containsSub textLower t then m + 1 else m) (0 : ℕ)
    (matchCount : ℚ) / (queryTerms.length : ℚ)

/-- Keyword score as the specification words it, reading "count of distinct
surviving tokens that appear as a substring" literally: the matching tokens
are deduplicated before counting, while the denominator is the total
surviving token count. -/
def keywordScoreSpecDistinct (query text : String) : ℚ :=
  let toks := queryTermsOf query.data
  let textLower := text.data.map Char.toLower
  if toks.length = 0 then 0
  else ((toks.dedup.countP (fun t => containsSub textLower t)) : ℚ) / (toks.length : ℚ)

/-- Keyword score as the amended specification words it: the count of
surviving tokens (with multiplicity) that appear as a substring of the
lower-cased text, divided by the total surviving token count; `0` when no
token survives. -/
def keywordScoreSpecMulti (query text : String) : ℚ :=
  let toks := queryTermsOf query.data
  let textLower := text.data.map Char.toLower
  if toks.length = 0 then 0
  else ((toks.countP (fun t => containsSub textLower t)) : ℚ) / (toks.length : ℚ)

/-! ### Data model (`@/types` and `src/unnamed/part_003`)

JavaScript floating-point numbers are idealised as real numbers. -/

/-- An embedding vector. -/
abbrev Vec := List ℝ

/-- A document chunk: the retrieval-relevant fields of the `DocumentChunk`
interface (`content`, optional `embedding`, identifiers).  The open metadata
map is not consulted by the search engine and is omitted. -/
structure DocumentChunk where
  id : String
  documentId : String
  content : String
  embedding : Option Vec

/-- The persisted aggregate: `{version, documents, chunks}`.  Documents are
kept as their names only; `search` reads nothing but `chunks`. -/
structure VectorIndex where
  version : ℕ
  documents : List String
  chunks : List DocumentChunk

/-- A per-query search result: a chunk together with its combined score. -/
structure SearchResult where
  chunk : DocumentChunk
  score : ℝ

section RealValued

open scoped Classical

noncomputable section

/-- Model of `dotProduct` from `src/unnamed/part_003`:
`a.reduce((acc, val, i) => acc + val * b[i], 0)`.  The model multiplies
pointwise over the common length; an out-of-range `b[i]` is `undefined` in
JavaScript and poisons the result with `NaN`, a floating-point artefact with
no real-number counterpart — all uses below apply it to vectors of a common
backend dimension or behind the zero-magnitude guard. -/
def dotProduct (a b : Vec) : ℝ :=
  (a.zip b).foldl (fun acc p => acc + p.1 * p.2) 0

/-- Model of `magnitude` from `src/unnamed/part_003`:
`Math.sqrt(a.reduce((acc, val) => acc + val * val, 0))`. -/
def magnitude (a : Vec) : ℝ :=
  Real.sqrt (a.foldl (fun acc v => acc + v * v) 0)

/-- Model of `cosineSimilarity` from `src/unnamed/part_003`: `0` when either
magnitude is zero, otherwise the normalised dot product. -/
def cosineSimilarity (a b : Vec) : ℝ :=
  if magnitude a = 0 ∨ magnitude b = 0 then 0
  else dotProduct a b / (magnitude a * magnitude b)

/-! ### Hybrid scoring and search (`search` from `src/unnamed/part_003`) -/

/-- Scoring of one chunk (lines 107–121 of `src/unnamed/part_003`): cosine
similarity against the query embedding when the chunk has an embedding, else
`0`; combined with the keyword score as `semantic * 0.3 + keyword * 0.7`. -/
def scoreChunk (queryEmbedding : Vec) (query : String) (chunk : DocumentChunk) : SearchResult :=
  let semanticScore : ℝ :=
    match chunk.embedding with
    | some emb => cosineSimilarity queryEmbedding emb
    | none => 0
  let keywordSimilarity : ℝ := ((keywordScore query chunk.content : ℚ) : ℝ)
  { chunk := chunk, score := semanticScore * 0.3 + keywordSimilarity * 0.7 }

/-- The comparator `(a, b) => b.score - a.score` of the source's stable
`Array.prototype.sort`, as the total preorder it sorts by: descending
score. -/
def scoreDescRel (a b : SearchResult) : Prop := b.score ≤ a.score

instance : IsTotal SearchResult scoreDescRel := ⟨fun a b => le_total b.score a.score⟩

instance : IsTrans SearchResult scoreDescRel := ⟨fun _ _ _ hab hbc => le_trans hbc hab⟩

noncomputable instance : DecidableRel scoreDescRel := fun a b => Real.decidableLE b.score a.score

/-- All chunks scored and stably sorted by descending combined score
(lines 106–122 of `src/unnamed/part_003`).  `List.insertionSort` with
`scoreDescRel` inserts every element after the earlier-listed elements of
equal score, which is exactly the ECMAScript stable sort under the
comparator `(a, b) => b.score - a.score`. -/
def allResultsOf (queryEmbedding : Vec) (query : String) (index : VectorIndex) : List SearchResult :=
  List.insertionSort scoreDescRel (index.chunks.map (scoreChunk queryEmbedding query))

/-- The body of the redundancy loop (lines 150–155 of
`src/unnamed/part_003`): when both the candidate and the selected chunk have
embeddings, update the running maximum with their cosine similarity if it is
strictly larger; otherwise leave the running maximum unchanged. -/
def redundancyStep (item : SearchResult) (maxSim : ℝ) (sel : SearchResult) : ℝ :=
  match item.chunk.embedding, sel.chunk.embedding with
  | some e1, some e2 =>
    let sim := cosineSimilarity e1 e2
    if maxSim < sim then sim else maxSim
  | _, _ => maxSim

/-- Redundancy of a candidate against the already selected results
(lines 149–155 of `src/unnamed/part_003`): a running maximum, started at `0`,
of the cosine similarities of the embedding pairs; pairs where either side
lacks an embedding are skipped. -/
def redundancy (item : SearchResult) (selected : List SearchResult) : ℝ :=
  selected.foldl (redundancyStep item) 0

/-- The MMR objective (line 158 of `src/unnamed/part_003`):
`lambda * relevance - (1 - lambda) * redundancy`. -/
def mmrValue (lambda : ℝ) (selected : List SearchResult) (item : SearchResult) : ℝ :=
  lambda * item.score - (1 - lambda) * redundancy item selected

/-- The inner `for` loop of the MMR stage (lines 142–164 of
`src/unnamed/part_003`): starting from `bestScore = -Infinity`, it keeps the
first index whose value strictly exceeds the running best, i.e. it selects
the first element attaining the maximum of `f`.  Returns that element and
its index, or `none` on the empty list. -/
def pickBest (f : SearchResult → ℝ) : List SearchResult → Option (ℕ × SearchResult)
  | [] => none
  | x :: xs =>
    match pickBest f xs with
    | none => some (0, x)
    | some (j, y) => if f x < f y then some (j + 1, y) else some (0, x)

/-- The `while` loop of the MMR stage (lines 141–172 of
`src/unnamed/part_003`): while fewer than `topK` are selected and candidates
remain, move the remaining candidate with the highest MMR value to the end
of the selected list.  The loop runs at most `remaining.length` iterations,
which the caller supplies as fuel. -/
def mmrGo (lambda : ℝ) (topK : ℕ) :
    ℕ → List SearchResult → List SearchResult → List SearchResult
  | 0, _, selected => selected
  | fuel + 1, remaining, selected =>
    if selected.length < topK ∧ remaining ≠ [] then
      match pickBest (mmrValue lambda selected) remaining with
      | none => selected
      | some (i, item) => mmrGo lambda topK fuel (remaining.eraseIdx i) (selected ++ [item])
    else selected

/-- MMR reranking of a candidate list (the `useReranker` branch of `search`,
`src/unnamed/part_003`). -/
def mmrSelect (lambda : ℝ) (candidates : List SearchResult) (topK : ℕ) : List SearchResult :=
  mmrGo lambda topK candidates.length candidates []

/-- The final result filter (lines 178–186 of `src/unnamed/part_003`): keep
results with `score >= threshold`; then, if any remain, keep those with
`score >= best * 0.85` where `best` is the first remaining result's score. -/
def resultFilter (results : List SearchResult) (threshold : ℝ) : List SearchResult :=
  let r1 := results.filter (fun r => decide (r.score ≥ threshold))
  match r1 with
  | [] => r1
  | best :: _ => r1.filter (fun r => decide (r.score ≥ best.score * 0.85))

/-- The synchronous part of `search` once a query embedding is available:
score and sort all chunks, take the top `topK` (or MMR-rerank the top
`topK * 3` with `lambda = 0.7`), and filter. -/
def searchPipe (queryEmbedding : Vec) (query : String) (index : VectorIndex)
    (topK : ℕ) (threshold : ℝ) (useReranker : Bool) : List SearchResult :=
  let allResults := allResultsOf queryEmbedding query index
  let results :=
    if useReranker then mmrSelect 0.7 (allResults.take (topK * 3)) topK
    else allResults.take topK
  resultFilter results threshold

/-- Model of `search(query, index, topK, threshold, useReranker)` from
`src/unnamed/part_003`.  `embedOutcome` is the outcome of
`getEmbeddings([query])`: `Except.error e` when the worker reports an error
(the promise rejects), `Except.ok vectors` when it resolves.  The source has
no `try`/`catch` around the `await`, so a rejection makes `search` itself
reject, modelled by `Except.error e`; a resolved call whose first vector is
missing (`!queryEmbedding`) returns `[]`; an empty index returns `[]` before
the embedding call. -/
def search (embedOutcome : Except String (List Vec)) (query : String) (index : VectorIndex)
    (topK : ℕ) (threshold : ℝ) (useReranker : Bool) : Except String (List SearchResult) :=
  if index.chunks.isEmpty then Except.ok []
  else
    match embedOutcome with
    | Except.error e => Except.error e
    | Except.ok embeds =>
      match embeds.head? with
      | none => Except.ok []
      | some queryEmbedding =>
        Except.ok (searchPipe queryEmbedding query index topK threshold useReranker)

/-- The number of results of a `search` outcome (zero for a rejection). -/
def resultCount : Except String (List SearchResult) → ℕ
  | Except.ok l => l.length
  | Except.error _ => 0

/-! ### Specification-side formulations (for comparison with the source) -/

/-- The result filter as the specification words it: first drop every result
with `score < threshold`; then, if any results remain, with `best` the first
remaining result's score, drop every result with `score < best * 0.85`. -/
def resultFilterSpec (results : List SearchResult) (threshold : ℝ) : List SearchResult :=
  let pass1 := results.filter (fun r => decide (¬ r.score < threshold))
  match pass1 with
  | [] => []
  | best :: _ => pass1.filter (fun r => decide (¬ r.score < best.score * 0.85))

/-- The similarity of one candidate/selected pair as the specification words
it: the cosine similarity of the two embeddings, `0` when either side lacks
an embedding. -/
def pairSim (item sel : SearchResult) : ℝ :=
  match item.chunk.embedding, sel.chunk.embedding with
  | some e1, some e2 => cosineSimilarity e1 e2
  | _, _ => 0

/-- Redundancy as the specification words it, read literally: the maximum
over the selected results of the pair similarities (so a negative cosine
similarity is returned as such), `0` only when nothing is selected. -/
def redundancySpecStrict (item : SearchResult) (selected : List SearchResult) : ℝ :=
  match selected with
  | [] => 0
  | s :: ss => ss.foldl (fun m sel => max m (pairSim item sel)) (pairSim item s)

/-- Redundancy as the amended specification words it: the maximum of `0` and
the pair similarities of the candidate with the selected results. -/
def redundancySpecAmended (item : SearchResult) (selected : List SearchResult) : ℝ :=
  (selected.map (pairSim item)).foldl max 0

/-- The greedy MMR selection as the specification words it, parameterised by
the redundancy formula: repeatedly move the remaining candidate with the
highest `lambda * score - (1 - lambda) * redundancy` to the selected list,
until `topK` are selected or no candidates remain. -/
def mmrGoWith (red : SearchResult → List SearchResult → ℝ) (lambda : ℝ) (topK : ℕ) :
    ℕ → List SearchResult → List SearchResult → List SearchResult
  | 0, _, selected => selected
  | fuel + 1, remaining, selected =>
    if selected.length < topK ∧ remaining ≠ [] then
      match pickBest (fun item => lambda * item.score - (1 - lambda) * red item selected) remaining with
      | none => selected
      | some (i, item) => mmrGoWith red lambda topK fuel (remaining.eraseIdx i) (selected ++ [item])
    else selected

/-- MMR selection with the literal (unclamped) redundancy of the
specification. -/
def mmrSelectSpecStrict (lambda : ℝ) (candidates : List SearchResult) (topK : ℕ) :
    List SearchResult :=
  mmrGoWith redundancySpecStrict lambda topK candidates.length candidates []

/-- MMR selection with the amended (clamped at `0`) redundancy. -/
def mmrSelectSpecAmended (lambda : ℝ) (candidates : List SearchResult) (topK : ℕ) :
    List SearchResult :=
  mmrGoWith redundancySpecAmended lambda topK candidates.length candidates []

end

end RealValued

/-! ### Concrete fixtures -/

/-- A one-chunk index (no embeddings yet). -/
noncomputable def exIndex1 : VectorIndex :=
  { version := 1, documents := ["doc"],
    chunks := [{ id := "c1", documentId := "d1",
                 content := "The cat sat on the mat", embedding := none }] }

/-- First chunk of the three-chunk scenario. -/
noncomputable def catChunk1 : DocumentChunk :=
  { id := "c1", documentId := "d1", content := "The cat sat on the mat", embedding := none }

/-- Second chunk of the three-chunk scenario. -/
noncomputable def catChunk2 : DocumentChunk :=
  { id := "c2", documentId := "d1", content := "Dogs bark loudly", embedding := none }

/-- Third chunk of the three-chunk scenario. -/
noncomputable def catChunk3 : DocumentChunk :=
  { id := "c3", documentId := "d1", content := "Cats and dogs are pets", embedding := none }

/-- The three-chunk scenario index. -/
noncomputable def catIndex : VectorIndex :=
  { version := 1, documents := ["doc"], chunks := [catChunk1, catChunk2, catChunk3] }

/-! ### Claim C2: termination of the chunker -/

/-- One loop iteration of `chunkText("a\nbbbb", 4, 2)` at cursor `0` snaps the
window end back to just after the newline (position 2), emits the chunk `"a"`,
and advances the cursor to `2 - 2 = 0`: the cursor does not move. -/
theorem chunkIter_stuckA :
    chunkIter "a\nbbbb".data 4 2 0 = (0, some ⟨"a", 1, 2⟩) := by decide

/-- One loop iteration of `chunkText("abc", 1, 1)` at cursor `0` emits `"a"`
and advances the cursor to `1 - 1 = 0`: the cursor does not move, and the
`start >= end` guard does not fire since `0 < 1`. -/
theorem chunkIter_stuckB :
    chunkIter "abc".data 1 1 0 = (0, some ⟨"a", 1, 1⟩) := by decide

theorem chunkTextGo_stuckA (fuel : ℕ) :
    ∀ acc, chunkTextGo "a\nbbbb".data 4 2 fuel 0 acc = none := by
  induction fuel with
  | zero => intro acc; rfl
  | succ n ih =>
    intro acc
    simp only [chunkTextGo, chunkIter_stuckA]
    rw [if_pos (by decide : (0 : ℤ) < ("a\nbbbb".data.length : ℤ))]
    exact ih _

theorem chunkTextGo_stuckB (fuel : ℕ) :
    ∀ acc, chunkTextGo "abc".data 1 1 fuel 0 acc = none := by
  induction fuel with
  | zero => intro acc; rfl
  | succ n ih =>
    intro acc
    simp only [chunkTextGo, chunkIter_stuckB]
    rw [if_pos (by decide : (0 : ℤ) < ("abc".data.length : ℤ))]
    exact ih _

/-- C2: the claim asserts `chunk(text, size, overlap)` terminates in at most
`ceil(text.length / (size - overlap))` iterations for `0 ≤ overlap < size`,
and also terminates when `overlap ≥ size`.  The code violates both parts:
with `text = "a\nbbbb"`, `size = 4`, `overlap = 2` (so `0 ≤ overlap < size`)
the newline snap fixes the window end at `2`, the cursor advances to
`2 - 2 = 0` every iteration, and the guard `start >= end` never fires, so
the loop never terminates; likewise `chunk("abc", 1, 1)` (the
`overlap ≥ size` part) loops forever at cursor `0`.  Formally: for every
fuel, the fueled loop fails to finish. -/
theorem c2_chunk_nontermination :
    (∀ fuel : ℕ, chunkText fuel "a\nbbbb" 4 2 = none) ∧
    (∀ fuel : ℕ, chunkText fuel "abc" 1 1 = none) :=
  ⟨fun fuel => chunkTextGo_stuckA fuel [], fun fuel => chunkTextGo_stuckB fuel []⟩

/-! ### Claim C6: line ranges of the concrete chunking scenario -/

/-- C6: `chunk("line1\nline2\nline3\n", size = 6, overlap = 0)` terminates
(three iterations) and yields chunks with `lineEnd` values `[2, 3, 4]`, which
are non-decreasing in emission order, and the last `lineEnd` equals the total
line count of the input (4 newline-separated lines, the trailing newline
starting a final empty line). -/
theorem c6_chunk_line_ranges :
    ∃ cs, chunkText 10 "line1\nline2\nline3\n" 6 0 = some cs ∧
      cs.map ChunkPiece.lineEnd = [2, 3, 4] ∧
      List.Chain' (· ≤ ·) (cs.map ChunkPiece.lineEnd) ∧
      (cs.map ChunkPiece.lineEnd).getLast? = some (totalLines "line1\nline2\nline3\n") :=
  ⟨[⟨"line1", 1, 2⟩, ⟨"line2", 2, 3⟩, ⟨"line3", 3, 4⟩],
    by decide, by decide, by norm_num [List.chain'_cons], by decide⟩

/-! ### Claim C3: the keyword score formula -/

theorem foldl_count_eq_countP (p : List Char → Bool) (l : List (List Char)) :
    ∀ n : ℕ, l.foldl (fun m t => if p t then m + 1 else m) n = n + l.countP p := by
  induction l with
  | nil => intro n; simp
  | cons a l ih =>
    intro n
    rw [List.foldl_cons, List.countP_cons]
    by_cases h : p a = true <;> simp [h, ih] <;> omega

/-- C3 counterexample: for the query `"cat cat dog"` against the text
`"cat"`, the code counts the surviving tokens `["cat", "cat", "dog"]` with
multiplicity and scores `2/3`, while the claimed "count of distinct surviving
tokens that appear as a substring, divided by the total surviving token
count" is `1/3`. -/
theorem c3_distinct_counterexample :
    keywordScore "cat cat dog" "cat" = 2 / 3 ∧
    keywordScoreSpecDistinct "cat cat dog" "cat" = 1 / 3 ∧
    keywordScore "cat cat dog" "cat" ≠ keywordScoreSpecDistinct "cat cat dog" "cat" := by
  have hcode : keywordScore "cat cat dog" "cat" = 2 / 3 := by
    simp only [keywordScore]
    rw [show (queryTermsOf "cat cat dog".data).length = 3 from by decide]
    rw [show List.foldl (fun m t => if containsSub ("cat".data.map Char.toLower) t then m + 1 else m)
          (0 : ℕ) (queryTermsOf "cat cat dog".data) = 2 from by decide]
    norm_num
  have hspec : keywordScoreSpecDistinct "cat cat dog" "cat" = 1 / 3 := by
    simp only [keywordScoreSpecDistinct]
    rw [show (queryTermsOf "cat cat dog".data).length = 3 from by decide]
    rw [show List.countP (fun t => containsSub ("cat".data.map Char.toLower) t)
          (queryTermsOf "cat cat dog".data).dedup = 1 from by decide]
    norm_num
  refine ⟨hcode, hspec, ?_⟩
  rw [hcode, hspec]
  norm_num

/-- C3 amended: `keywordScore(query, content)` equals the described
tokenise/clean/filter pipeline score with the matching tokens counted with
multiplicity (not deduplicated): if zero tokens survive the score is `0`,
otherwise it is the count of surviving tokens occurring as a substring of the
lower-cased content divided by the total surviving token count. -/
theorem c3_keyword_score_spec (query text : String) :
    keywordScore query text = keywordScoreSpecMulti query text := by
  unfold keywordScore keywordScoreSpecMulti
  by_cases h : (queryTermsOf query.data).length = 0
  · simp only [h, if_pos rfl, if_true]
  · simp only [if_neg h]
    rw [foldl_count_eq_countP]
    simp

/-- C3 amended, witness at a concrete input (the theorem has only non-Prop
binders, but the instance documents a concrete evaluation). -/
theorem c3_keyword_score_spec_witness :
    keywordScore "cat cat dog" "cat" = keywordScoreSpecMulti "cat cat dog" "cat" :=
  c3_keyword_score_spec "cat cat dog" "cat"

/-! ### Claim C4: the result filter -/

/-- C4: the source's result filter equals the specification's two-pass
description (absolute cutoff, then relative cutoff against the first
remaining result's score); the empty input yields `[]`; and an input where
every result fails the absolute cutoff yields `[]` (every list all of whose
scores are below the threshold is of the form `results.filter (score < t)`). -/
theorem c4_result_filter_spec :
    (∀ (results : List SearchResult) (threshold : ℝ),
        resultFilter results threshold = resultFilterSpec results threshold) ∧
    (∀ threshold : ℝ, resultFilter [] threshold = []) ∧
    (∀ (results : List SearchResult) (threshold : ℝ),
        resultFilter (results.filter (fun r => decide (r.score < threshold))) threshold = []) := by
  have hcond : ∀ (t : ℝ) (rs : List SearchResult),
      rs.filter (fun r => decide (r.score ≥ t)) = rs.filter (fun r => decide (¬ r.score < t)) :=
    fun t rs => List.filter_congr (fun x _ => by simp only [decide_eq_decide, ge_iff_le, not_lt])
  refine ⟨fun rs t => ?_, fun t => rfl, fun rs t => ?_⟩
  · simp only [resultFilter, resultFilterSpec]
    rw [hcond]
    rcases hE : rs.filter (fun r => decide (¬ r.score < t)) with _ | ⟨best, tail⟩
    · rw [hE]
    · rw [hE]
      exact List.filter_congr (fun x _ => by simp only [decide_eq_decide, ge_iff_le, not_lt])
  · simp only [resultFilter]
    have h1 : (rs.filter (fun r => decide (r.score < t))).filter
        (fun r => decide (r.score ≥ t)) = [] := by
      rw [List.filter_filter]
      refine List.filter_eq_nil_iff.mpr (fun a _ => ?_)
      by_cases h : a.score < t
      · simp [h, not_le.mpr h]
      · simp [h]
    rw [h1]

/-! ### Claim C9: cosine degeneracy -/

theorem foldl_sq_replicate_zero (n : ℕ) :
    ∀ acc : ℝ, (List.replicate n (0 : ℝ)).foldl (fun a v => a + v * v) acc = acc := by
  induction n with
  | zero => intro acc; rfl
  | succ m ih =>
    intro acc
    rw [List.replicate_succ, List.foldl_cons, show acc + 0 * 0 = acc by ring]
    exact ih acc

theorem magnitude_replicate_zero (n : ℕ) : magnitude (List.replicate n (0 : ℝ)) = 0 := by
  unfold magnitude
  rw [foldl_sq_replicate_zero]
  exact Real.sqrt_zero

/-- C9: `cosineSimilarity v zeroVector = 0` for every vector `v` and every
zero vector, and more generally whenever either argument has magnitude `0`
the function returns exactly `0`: the division branch is taken only when
both magnitudes are non-zero. -/
theorem c9_cosine_zero_guard :
    (∀ (v : Vec) (n : ℕ), cosineSimilarity v (List.replicate n 0) = 0) ∧
    (∀ a b : Vec, magnitude a = 0 ∨ magnitude b = 0 → cosineSimilarity a b = 0) := by
  constructor
  · intro v n
    unfold cosineSimilarity
    rw [if_pos (Or.inr (magnitude_replicate_zero n))]
  · intro a b h
    unfold cosineSimilarity
    rw [if_pos h]

/-- C9 witness: the guarded case evaluated at the concrete vectors `[0]` and
`[1]`. -/
theorem c9_cosine_zero_guard_witness :
    (magnitude [(0 : ℝ)] = 0 ∨ magnitude [(1 : ℝ)] = 0) ∧
    cosineSimilarity [(0 : ℝ)] [(1 : ℝ)] = 0 :=
  have h : magnitude [(0 : ℝ)] = 0 := by
    rw [show [(0 : ℝ)] = List.replicate 1 (0 : ℝ) from rfl]
    exact magnitude_replicate_zero 1
  ⟨Or.inl h, c9_cosine_zero_guard.2 _ _ (Or.inl h)⟩

/-! ### Claim C1: behaviour when the query embedding fails -/

/-- C1 counterexample: with a non-empty index, a rejected embedding batch
makes `search` itself reject — the outcome is `Except.error`, not the empty
result list the claim asserts (there is no `try`/`catch` around the `await
getEmbeddings` in the source). -/
theorem c1_rejection_counterexample :
    search (Except.error "embed failed") "query" exIndex1 3 0.1 false
      = Except.error "embed failed" ∧
    search (Except.error "embed failed") "query" exIndex1 3 0.1 false
      ≠ Except.ok [] := by
  constructor
  · rfl
  · intro h
    rw [show search (Except.error "embed failed") "query" exIndex1 3 0.1 false
          = Except.error "embed failed" from rfl] at h
    exact Except.noConfusion h

/-- C1 amended: for every index with a non-empty chunk list, when the
embedding call resolves but yields no vector `search` resolves to `[]`; when
the embedding call rejects, `search` rejects with the same error (the failure
is not caught at this boundary). -/
theorem c1_embedding_failure_behavior (e : String) (query : String) (index : VectorIndex)
    (topK : ℕ) (threshold : ℝ) (useReranker : Bool) (h : index.chunks ≠ []) :
    search (Except.error e) query index topK threshold useReranker = Except.error e ∧
    search (Except.ok []) query index topK threshold useReranker = Except.ok [] := by
  rcases hc : index.chunks with _ | ⟨c, cs⟩
  · exact absurd hc h
  · constructor
    · simp [search, hc]
    · simp [search, hc]

/-- C1 amended witness: the two behaviours at a concrete one-chunk index. -/
theorem c1_embedding_failure_behavior_witness :
    exIndex1.chunks ≠ [] ∧
    (search (Except.error "down") "q" exIndex1 3 0.1 false = Except.error "down" ∧
     search (Except.ok []) "q" exIndex1 3 0.1 false = Except.ok []) :=
  have h : exIndex1.chunks ≠ [] := by simp [exIndex1]
  ⟨h, c1_embedding_failure_behavior "down" "q" exIndex1 3 0.1 false h⟩

/-! ### Claim C7: the three-chunk lexical scenario -/

theorem keywordScore_concrete (q t : String) (m n : ℕ)
    (hm : List.foldl (fun acc tk => if containsSub (t.data.map Char.toLower) tk then acc + 1 else acc)
        (0 : ℕ) (queryTermsOf q.data) = m)
    (hn : (queryTermsOf q.data).length = n) (h0 : ¬ n = 0) :
    keywordScore q t = (m : ℚ) / (n : ℚ) := by
  simp only [keywordScore]
  rw [hn, hm, if_neg h0]

theorem scoreChunk_noEmbedding (qv : Vec) (q : String) (c : DocumentChunk)
    (hc : c.embedding = none) (s : ℝ)
    (hs : ((keywordScore q c.content : ℚ) : ℝ) * 0.7 = s) :
    scoreChunk qv q c = { chunk := c, score := s } := by
  have harith : (0 : ℝ) * 0.3 + ((keywordScore q c.content : ℚ) : ℝ) * 0.7 = s := by
    rw [← hs]; ring
  simp only [scoreChunk, hc, harith]

theorem kw_cat1 : keywordScore "cat" "The cat sat on the mat" = 1 := by
  rw [keywordScore_concrete "cat" "The cat sat on the mat" 1 1 (by decide) (by decide) (by decide)]
  norm_num

theorem kw_cat2 : keywordScore "cat" "Dogs bark loudly" = 0 := by
  rw [keywordScore_concrete "cat" "Dogs bark loudly" 0 1 (by decide) (by decide) (by decide)]
  norm_num

theorem kw_cat3 : keywordScore "cat" "Cats and dogs are pets" = 1 := by
  rw [keywordScore_concrete "cat" "Cats and dogs are pets" 1 1 (by decide) (by decide) (by decide)]
  norm_num

theorem score_cat1 : scoreChunk [1] "cat" catChunk1 = { chunk := catChunk1, score := 0.7 } := by
  refine scoreChunk_noEmbedding [1] "cat" catChunk1 rfl 0.7 ?_
  rw [show catChunk1.content = "The cat sat on the mat" from rfl, kw_cat1]
  norm_num

theorem score_cat2 : scoreChunk [1] "cat" catChunk2 = { chunk := catChunk2, score := 0 } := by
  refine scoreChunk_noEmbedding [1] "cat" catChunk2 rfl 0 ?_
  rw [show catChunk2.content = "Dogs bark loudly" from rfl, kw_cat2]
  norm_num

theorem score_cat3 : scoreChunk [1] "cat" catChunk3 = { chunk := catChunk3, score := 0.7 } := by
  refine scoreChunk_noEmbedding [1] "cat" catChunk3 rfl 0.7 ?_
  rw [show catChunk3.content = "Cats and dogs are pets" from rfl, kw_cat3]
  norm_num

theorem sort_cat :
    List.insertionSort scoreDescRel
        [({ chunk := catChunk1, score := 0.7 } : SearchResult),
         { chunk := catChunk2, score := 0 },
         { chunk := catChunk3, score := 0.7 }]
      = [({ chunk := catChunk1, score := 0.7 } : SearchResult),
         { chunk := catChunk3, score := 0.7 },
         { chunk := catChunk2, score := 0 }] := by
  have hbc : ¬ scoreDescRel ({ chunk := catChunk2, score := 0 } : SearchResult)
      { chunk := catChunk3, score := 0.7 } := by
    norm_num [scoreDescRel]
  have hac : scoreDescRel ({ chunk := catChunk1, score := 0.7 } : SearchResult)
      { chunk := catChunk3, score := 0.7 } := by
    norm_num [scoreDescRel]
  simp only [List.insertionSort, List.orderedInsert]
  rw [if_neg hbc]
  simp only [List.orderedInsert]
  rw [if_pos hac]

theorem pipe_cat :
    searchPipe [1] "cat" catIndex 3 0.1 false
      = [({ chunk := catChunk1, score := 0.7 } : SearchResult),
         { chunk := catChunk3, score := 0.7 }] := by
  simp only [searchPipe, allResultsOf, catIndex, List.map_cons, List.map_nil]
  rw [score_cat1, score_cat2, score_cat3, sort_cat]
  simp only [Bool.false_eq_true, if_false, List.take_succ_cons, List.take_nil,
    resultFilter, List.filter_cons, List.filter_nil, decide_eq_true_eq]
  norm_num

/-- C7: in the three-chunk index (chunks without embeddings, so the semantic
component is `0` and only the lexical component contributes), the query
`"cat"` scores `1` lexically on chunks 1 and 3 and `0` on chunk 2, and with
`threshold = 0.1` the search returns exactly chunks 1 and 3, in original
index order (the stable descending sort breaks the tie by index). -/
theorem c7_lexical_scenario :
    keywordScore "cat" "The cat sat on the mat" = 1 ∧
    keywordScore "cat" "Dogs bark loudly" = 0 ∧
    keywordScore "cat" "Cats and dogs are pets" = 1 ∧
    search (Except.ok [[1]]) "cat" catIndex 3 0.1 false
      = Except.ok [({ chunk := catChunk1, score := 0.7 } : SearchResult),
                   { chunk := catChunk3, score := 0.7 }] := by
  refine ⟨kw_cat1, kw_cat2, kw_cat3, ?_⟩
  rw [show search (Except.ok [[1]]) "cat" catIndex 3 0.1 false
        = Except.ok (searchPipe [1] "cat" catIndex 3 0.1 false) from rfl, pipe_cat]

/-! ### Claim C8: the MMR reranking stage -/

theorem redundancyStep_eq (item s : SearchResult) (m : ℝ) (hm : 0 ≤ m) :
    redundancyStep item m s = max m (pairSim item s) := by
  unfold redundancyStep pairSim
  rcases item.chunk.embedding with _ | e1 <;> rcases s.chunk.embedding with _ | e2
  · exact (max_eq_left hm).symm
  · exact (max_eq_left hm).symm
  · exact (max_eq_left hm).symm
  · simp only []
    rcases le_or_lt (cosineSimilarity e1 e2) m with h | h
    · rw [if_neg (not_lt.mpr h), max_eq_left h]
    · rw [if_pos h, max_eq_right (le_of_lt h)]

theorem redundancy_foldl_spec (item : SearchResult) (sel : List SearchResult) :
    ∀ m : ℝ, 0 ≤ m →
      sel.foldl (redundancyStep item) m = (sel.map (pairSim item)).foldl max m := by
  induction sel with
  | nil => intro m _; rfl
  | cons s ss ih =>
    intro m hm
    rw [List.foldl_cons, List.map_cons, List.foldl_cons, redundancyStep_eq item s m hm]
    exact ih _ (le_trans hm (le_max_left _ _))

theorem redundancy_eq_amended (item : SearchResult) (selected : List SearchResult) :
    redundancy item selected = redundancySpecAmended item selected := by
  unfold redundancy redundancySpecAmended
  exact redundancy_foldl_spec item selected 0 le_rfl

theorem mmrGo_eq_amended (lambda : ℝ) (k : ℕ) :
    ∀ (fuel : ℕ) (remaining selected : List SearchResult),
      mmrGo lambda k fuel remaining selected
        = mmrGoWith redundancySpecAmended lambda k fuel remaining selected := by
  intro fuel
  induction fuel with
  | zero => intro remaining selected; rfl
  | succ n ih =>
    intro remaining selected
    rw [mmrGo, mmrGoWith]
    have hf : mmrValue lambda selected
        = fun item => lambda * item.score - (1 - lambda) * redundancySpecAmended item selected := by
      funext item
      rw [mmrValue, redundancy_eq_amended]
    rw [hf]
    by_cases hcond : selected.length < k ∧ remaining ≠ []
    · rw [if_pos hcond, if_pos hcond]
      rcases hpb : pickBest
          (fun item => lambda * item.score - (1 - lambda) * redundancySpecAmended item selected)
          remaining with _ | ⟨i, item⟩
      · rfl
      · exact ih _ _
    · rw [if_neg hcond, if_neg hcond]

/-- C8 amended: with `useReranker = true`, `search` reranks the top
`topK * 3` sorted candidates by greedy MMR selection with `lambda = 0.7`,
where the redundancy of a candidate is the maximum of `0` and the cosine
similarities with the already selected chunks (pairs missing an embedding
are skipped, and the running maximum starts at `0`, so negative similarities
never lower it), and the candidate with the highest
`lambda * score - (1 - lambda) * redundancy` is moved to the selected list
until `topK` are selected or no candidates remain. -/
theorem c8_mmr_amended :
    (∀ (qv : Vec) (query : String) (index : VectorIndex) (topK : ℕ) (threshold : ℝ),
        searchPipe qv query index topK threshold true
          = resultFilter (mmrSelect 0.7 ((allResultsOf qv query index).take (topK * 3)) topK)
              threshold) ∧
    (∀ (item : SearchResult) (selected : List SearchResult),
        redundancy item selected = redundancySpecAmended item selected) ∧
    (∀ (lambda : ℝ) (candidates : List SearchResult) (topK : ℕ),
        mmrSelect lambda candidates topK = mmrSelectSpecAmended lambda candidates topK) :=
  ⟨fun _ _ _ _ _ => rfl, redundancy_eq_amended,
   fun lambda candidates topK => mmrGo_eq_amended lambda topK candidates.length candidates []⟩

/-- MMR counterexample fixture: a selected-first result with embedding
`[1]`. -/
noncomputable def mmrS : SearchResult :=
  { chunk := { id := "s", documentId := "d1", content := "s", embedding := some [1] },
    score := 1 }

/-- MMR counterexample fixture: a candidate with embedding `[-1]`, whose
cosine similarity with `mmrS` is `-1`. -/
noncomputable def mmrA : SearchResult :=
  { chunk := { id := "a", documentId := "d1", content := "a", embedding := some [-1] },
    score := 0.5 }

/-- MMR counterexample fixture: a candidate without an embedding. -/
noncomputable def mmrB : SearchResult :=
  { chunk := { id := "b", documentId := "d1", content := "b", embedding := none },
    score := 0.6 }

theorem magnitude_one : magnitude [(1 : ℝ)] = 1 := by
  unfold magnitude
  rw [List.foldl_cons, List.foldl_nil]
  norm_num

theorem magnitude_negOne : magnitude [(-1 : ℝ)] = 1 := by
  unfold magnitude
  rw [List.foldl_cons, List.foldl_nil]
  norm_num

theorem cosine_negOne_one : cosineSimilarity [(-1 : ℝ)] [(1 : ℝ)] = -1 := by
  unfold cosineSimilarity
  rw [magnitude_negOne, magnitude_one]
  rw [if_neg (by norm_num : ¬ ((1 : ℝ) = 0 ∨ (1 : ℝ) = 0))]
  unfold dotProduct
  norm_num [List.zip]

theorem red_code_A : redundancy mmrA [mmrS] = 0 := by
  show (if (0 : ℝ) < cosineSimilarity [(-1 : ℝ)] [(1 : ℝ)]
        then cosineSimilarity [(-1 : ℝ)] [(1 : ℝ)] else 0) = 0
  rw [cosine_negOne_one, if_neg (by norm_num : ¬ ((0 : ℝ) < -1))]

theorem red_strict_A : redundancySpecStrict mmrA [mmrS] = -1 := by
  show cosineSimilarity [(-1 : ℝ)] [(1 : ℝ)] = -1
  exact cosine_negOne_one

theorem red_strict_B : redundancySpecStrict mmrB [mmrS] = 0 := rfl

theorem mmr_code_run : mmrSelect 0.7 [mmrS, mmrA, mmrB] 2 = [mmrS, mmrB] := by
  have hvS : mmrValue 0.7 [] mmrS = 0.7 := by
    unfold mmrValue redundancy
    rw [List.foldl_nil, show mmrS.score = (1 : ℝ) from rfl]
    norm_num
  have hvA : mmrValue 0.7 [] mmrA = 0.35 := by
    unfold mmrValue redundancy
    rw [List.foldl_nil, show mmrA.score = (0.5 : ℝ) from rfl]
    norm_num
  have hvB : mmrValue 0.7 [] mmrB = 0.42 := by
    unfold mmrValue redundancy
    rw [List.foldl_nil, show mmrB.score = (0.6 : ℝ) from rfl]
    norm_num
  have hv2A : mmrValue 0.7 [mmrS] mmrA = 0.35 := by
    unfold mmrValue
    rw [red_code_A, show mmrA.score = (0.5 : ℝ) from rfl]
    norm_num
  have hv2B : mmrValue 0.7 [mmrS] mmrB = 0.42 := by
    unfold mmrValue
    rw [show redundancy mmrB [mmrS] = 0 from by
          unfold redundancy
          rw [List.foldl_cons, List.foldl_nil]
          rfl,
        show mmrB.score = (0.6 : ℝ) from rfl]
    norm_num
  have hpick0 : pickBest (mmrValue 0.7 []) [mmrA, mmrB] = some (1, mmrB) := by
    show (if mmrValue 0.7 [] mmrA < mmrValue 0.7 [] mmrB
          then some (0 + 1, mmrB) else some (0, mmrA)) = some (1, mmrB)
    rw [hvA, hvB, if_pos (by norm_num : (0.35 : ℝ) < 0.42)]
  have hpick1 : pickBest (mmrValue 0.7 []) [mmrS, mmrA, mmrB] = some (0, mmrS) := by
    rw [pickBest, hpick0]
    show (if mmrValue 0.7 [] mmrS < mmrValue 0.7 [] mmrB
          then some (1 + 1, mmrB) else some (0, mmrS)) = some (0, mmrS)
    rw [hvS, hvB, if_neg (by norm_num : ¬ ((0.7 : ℝ) < 0.42))]
  have hpick2 : pickBest (mmrValue 0.7 [mmrS]) [mmrA, mmrB] = some (1, mmrB) := by
    show (if mmrValue 0.7 [mmrS] mmrA < mmrValue 0.7 [mmrS] mmrB
          then some (0 + 1, mmrB) else some (0, mmrA)) = some (1, mmrB)
    rw [hv2A, hv2B, if_pos (by norm_num : (0.35 : ℝ) < 0.42)]
  show mmrGo 0.7 2 (2 + 1) [mmrS, mmrA, mmrB] [] = [mmrS, mmrB]
  rw [mmrGo,
    if_pos (⟨by norm_num, by simp⟩ :
      ([] : List SearchResult).length < 2 ∧ ([mmrS, mmrA, mmrB] : List SearchResult) ≠ []),
    hpick1]
  show mmrGo 0.7 2 (1 + 1) [mmrA, mmrB] [mmrS] = [mmrS, mmrB]
  rw [mmrGo,
    if_pos (⟨by norm_num, by simp⟩ :
      ([mmrS] : List SearchResult).length < 2 ∧ ([mmrA, mmrB] : List SearchResult) ≠ []),
    hpick2]
  show mmrGo 0.7 2 (0 + 1) [mmrA] [mmrS, mmrB] = [mmrS, mmrB]
  rw [mmrGo,
    if_neg (fun h => absurd h.1 (by norm_num) :
      ¬(([mmrS, mmrB] : List SearchResult).length < 2 ∧ ([mmrA] : List SearchResult) ≠ []))]

theorem mmr_strict_run : mmrSelectSpecStrict 0.7 [mmrS, mmrA, mmrB] 2 = [mmrS, mmrA] := by
  have hred0 : ∀ item : SearchResult, redundancySpecStrict item [] = 0 := fun _ => rfl
  have hvS : 0.7 * mmrS.score - (1 - 0.7) * redundancySpecStrict mmrS [] = 0.7 := by
    rw [hred0, show mmrS.score = (1 : ℝ) from rfl]
    norm_num
  have hvA : 0.7 * mmrA.score - (1 - 0.7) * redundancySpecStrict mmrA [] = 0.35 := by
    rw [hred0, show mmrA.score = (0.5 : ℝ) from rfl]
    norm_num
  have hvB : 0.7 * mmrB.score - (1 - 0.7) * redundancySpecStrict mmrB [] = 0.42 := by
    rw [hred0, show mmrB.score = (0.6 : ℝ) from rfl]
    norm_num
  have hv2A : 0.7 * mmrA.score - (1 - 0.7) * redundancySpecStrict mmrA [mmrS] = 0.65 := by
    rw [red_strict_A, show mmrA.score = (0.5 : ℝ) from rfl]
    norm_num
  have hv2B : 0.7 * mmrB.score - (1 - 0.7) * redundancySpecStrict mmrB [mmrS] = 0.42 := by
    rw [red_strict_B, show mmrB.score = (0.6 : ℝ) from rfl]
    norm_num
  have hpick0 : pickBest
      (fun item => 0.7 * item.score - (1 - 0.7) * redundancySpecStrict item [])
      [mmrA, mmrB] = some (1, mmrB) := by
    show (if 0.7 * mmrA.score - (1 - 0.7) * redundancySpecStrict mmrA []
            < 0.7 * mmrB.score - (1 - 0.7) * redundancySpecStrict mmrB []
          then some (0 + 1, mmrB) else some (0, mmrA)) = some (1, mmrB)
    rw [hvA, hvB, if_pos (by norm_num : (0.35 : ℝ) < 0.42)]
  have hpick1 : pickBest
      (fun item => 0.7 * item.score - (1 - 0.7) * redundancySpecStrict item [])
      [mmrS, mmrA, mmrB] = some (0, mmrS) := by
    rw [pickBest, hpick0]
    show (if 0.7 * mmrS.score - (1 - 0.7) * redundancySpecStrict mmrS []
            < 0.7 * mmrB.score - (1 - 0.7) * redundancySpecStrict mmrB []
          then some (1 + 1, mmrB) else some (0, mmrS)) = some (0, mmrS)
    rw [hvS, hvB, if_neg (by norm_num : ¬ ((0.7 : ℝ) < 0.42))]
  have hpick2 : pickBest
      (fun item => 0.7 * item.score - (1 - 0.7) * redundancySpecStrict item [mmrS])
      [mmrA, mmrB] = some (0, mmrA) := by
    show (if 0.7 * mmrA.score - (1 - 0.7) * redundancySpecStrict mmrA [mmrS]
            < 0.7 * mmrB.score - (1 - 0.7) * redundancySpecStrict mmrB [mmrS]
          then some (0 + 1, mmrB) else some (0, mmrA)) = some (0, mmrA)
    rw [hv2A, hv2B, if_neg (by norm_num : ¬ ((0.65 : ℝ) < 0.42))]
  show mmrGoWith redundancySpecStrict 0.7 2 (2 + 1) [mmrS, mmrA, mmrB] [] = [mmrS, mmrA]
  rw [mmrGoWith,
    if_pos (⟨by norm_num, by simp⟩ :
      ([] : List SearchResult).length < 2 ∧ ([mmrS, mmrA, mmrB] : List SearchResult) ≠ []),
    hpick1]
  show mmrGoWith redundancySpecStrict 0.7 2 (1 + 1) [mmrA, mmrB] [mmrS] = [mmrS, mmrA]
  rw [mmrGoWith,
    if_pos (⟨by norm_num, by simp⟩ :
      ([mmrS] : List SearchResult).length < 2 ∧ ([mmrA, mmrB] : List SearchResult) ≠ []),
    hpick2]
  show mmrGoWith redundancySpecStrict 0.7 2 (0 + 1) [mmrB] [mmrS, mmrA] = [mmrS, mmrA]
  rw [mmrGoWith,
    if_neg (fun h => absurd h.1 (by norm_num) :
      ¬(([mmrS, mmrA] : List SearchResult).length < 2 ∧ ([mmrB] : List SearchResult) ≠ []))]

/-- C8 counterexample: with candidates `[mmrS, mmrA, mmrB]` and `topK = 2`,
the source reranker selects `[mmrS, mmrB]` (the running maximum clamps the
`-1` cosine similarity of `mmrA` with `mmrS` to `0`), while the claim's
redundancy — the plain maximum cosine similarity — yields `-1` for `mmrA`,
boosts its MMR value to `0.65`, and selects `[mmrS, mmrA]`: the claimed
formula does not describe the code. -/
theorem c8_mmr_counterexample :
    mmrSelect 0.7 [mmrS, mmrA, mmrB] 2 = [mmrS, mmrB] ∧
    mmrSelectSpecStrict 0.7 [mmrS, mmrA, mmrB] 2 = [mmrS, mmrA] ∧
    mmrSelect 0.7 [mmrS, mmrA, mmrB] 2 ≠ mmrSelectSpecStrict 0.7 [mmrS, mmrA, mmrB] 2 := by
  refine ⟨mmr_code_run, mmr_strict_run, ?_⟩
  rw [mmr_code_run, mmr_strict_run]
  intro h
  have h2 := congrArg (fun l => l.get? 1) h
  simp only [List.get?] at h2
  have h3 : mmrB = mmrA := Option.some.inj h2
  have h4 := congrArg SearchResult.score h3
  rw [show mmrB.score = (0.6 : ℝ) from rfl, show mmrA.score = (0.5 : ℝ) from rfl] at h4
  norm_num at h4

/-! ### Claims C5 and C10: structural lemmas about the pipeline -/

/-- The first element of the list, when one exists, carries the maximal
score. -/
def headDominates : List SearchResult → Prop
  | [] => True
  | a :: rest => ∀ x ∈ rest, x.score ≤ a.score

theorem headDominates_of_pairwise {l : List SearchResult}
    (h : List.Pairwise scoreDescRel l) : headDominates l := by
  cases l with
  | nil => trivial
  | cons a rest =>
    intro x hx
    exact (List.pairwise_cons.mp h).1 x hx

theorem sorted_allResultsOf (qv : Vec) (query : String) (index : VectorIndex) :
    List.Pairwise scoreDescRel (allResultsOf qv query index) :=
  List.sorted_insertionSort scoreDescRel _

theorem pickBest_none (f : SearchResult → ℝ) :
    ∀ l : List SearchResult, pickBest f l = none → l = [] := by
  intro l h
  cases l with
  | nil => rfl
  | cons x xs =>
    rw [pickBest] at h
    cases hzs : pickBest f xs with
    | none => rw [hzs] at h; exact Option.noConfusion h
    | some p =>
      obtain ⟨j, y⟩ := p
      simp only [hzs] at h
      by_cases hlt : f x < f y
      · rw [if_pos hlt] at h; exact Option.noConfusion h
      · rw [if_neg hlt] at h; exact Option.noConfusion h

theorem pickBest_perm (f : SearchResult → ℝ) :
    ∀ (l : List SearchResult) (i : ℕ) (x : SearchResult),
      pickBest f l = some (i, x) → List.Perm (x :: l.eraseIdx i) l := by
  intro l
  induction l with
  | nil => intro i x h; rw [pickBest] at h; exact Option.noConfusion h
  | cons z zs ih =>
    intro i x h
    rw [pickBest] at h
    cases hzs : pickBest f zs with
    | none =>
      simp only [hzs] at h
      have h2 := Option.some.inj h
      have hi : 0 = i := congrArg Prod.fst h2
      have hx : z = x := congrArg Prod.snd h2
      subst hi; subst hx
      exact List.Perm.refl _
    | some p =>
      obtain ⟨j, y⟩ := p
      simp only [hzs] at h
      by_cases hlt : f z < f y
      · rw [if_pos hlt] at h
        have h2 := Option.some.inj h
        have hi : j + 1 = i := congrArg Prod.fst h2
        have hx : y = x := congrArg Prod.snd h2
        subst hi; subst hx
        show List.Perm (y :: z :: zs.eraseIdx j) (z :: zs)
        exact (List.Perm.swap z y (zs.eraseIdx j)).trans ((ih j y hzs).cons z)
      · rw [if_neg hlt] at h
        have h2 := Option.some.inj h
        have hi : 0 = i := congrArg Prod.fst h2
        have hx : z = x := congrArg Prod.snd h2
        subst hi; subst hx
        exact List.Perm.refl _

theorem pickBest_max (f : SearchResult → ℝ) :
    ∀ (l : List SearchResult) (i : ℕ) (x : SearchResult),
      pickBest f l = some (i, x) → ∀ z ∈ l, f z ≤ f x := by
  intro l
  induction l with
  | nil => intro i x h; rw [pickBest] at h; exact Option.noConfusion h
  | cons w ws ih =>
    intro i x h z hz
    rw [pickBest] at h
    cases hzs : pickBest f ws with
    | none =>
      have hws : ws = [] := pickBest_none f ws hzs
      subst hws
      simp only [hzs] at h
      have hx : w = x := congrArg Prod.snd (Option.some.inj h)
      subst hx
      rcases List.mem_singleton.mp hz with rfl
      exact le_refl _
    | some p =>
      obtain ⟨j, y⟩ := p
      simp only [hzs] at h
      have hmax := ih j y hzs
      by_cases hlt : f w < f y
      · rw [if_pos hlt] at h
        have hx : y = x := congrArg Prod.snd (Option.some.inj h)
        subst hx
        rcases List.mem_cons.mp hz with rfl | hz2
        · exact le_of_lt hlt
        · exact hmax z hz2
      · rw [if_neg hlt] at h
        have hx : w = x := congrArg Prod.snd (Option.some.inj h)
        subst hx
        rcases List.mem_cons.mp hz with rfl | hz2
        · exact le_refl _
        · exact le_trans (hmax z hz2) (not_lt.mp hlt)

theorem subperm_map (f : SearchResult → DocumentChunk) {l₁ l₂ : List SearchResult}
    (h : List.Subperm l₁ l₂) : List.Subperm (l₁.map f) (l₂.map f) := by
  obtain ⟨l, hp, hs⟩ := h
  exact ⟨l.map f, hp.map f, hs.map f⟩

theorem mmrGo_shape (lambda : ℝ) (k : ℕ) :
    ∀ (fuel : ℕ) (remaining selected : List SearchResult),
      ∃ extra, mmrGo lambda k fuel remaining selected = selected ++ extra ∧
        List.Subperm extra remaining := by
  intro fuel
  induction fuel with
  | zero =>
    intro remaining selected
    exact ⟨[], by rw [mmrGo, List.append_nil], List.nil_subperm⟩
  | succ n ih =>
    intro remaining selected
    rw [mmrGo]
    by_cases hcond : selected.length < k ∧ remaining ≠ []
    · rw [if_pos hcond]
      cases hpb : pickBest (mmrValue lambda selected) remaining with
      | none => exact ⟨[], by rw [List.append_nil], List.nil_subperm⟩
      | some p =>
        obtain ⟨i, item⟩ := p
        obtain ⟨extra, heq, hsub⟩ := ih (remaining.eraseIdx i) (selected ++ [item])
        refine ⟨item :: extra, ?_, ?_⟩
        · show mmrGo lambda k n (remaining.eraseIdx i) (selected ++ [item])
              = selected ++ (item :: extra)
          rw [heq, List.append_assoc]
          rfl
        · have hperm := pickBest_perm _ remaining i item hpb
          have h1 : List.Subperm (item :: extra) (item :: remaining.eraseIdx i) := by
            obtain ⟨l, hp, hs⟩ := hsub
            exact ⟨item :: l, hp.cons item, hs.cons₂ item⟩
          exact h1.trans hperm.subperm
    · rw [if_neg hcond]
      exact ⟨[], by rw [List.append_nil], List.nil_subperm⟩

theorem mmrGo_length (lambda : ℝ) (k : ℕ) :
    ∀ (fuel : ℕ) (remaining selected : List SearchResult),
      selected.length ≤ k → (mmrGo lambda k fuel remaining selected).length ≤ k := by
  intro fuel
  induction fuel with
  | zero => intro remaining selected h; rw [mmrGo]; exact h
  | succ n ih =>
    intro remaining selected h
    rw [mmrGo]
    by_cases hcond : selected.length < k ∧ remaining ≠ []
    · rw [if_pos hcond]
      cases hpb : pickBest (mmrValue lambda selected) remaining with
      | none => exact h
      | some p =>
        obtain ⟨i, item⟩ := p
        show (mmrGo lambda k n (remaining.eraseIdx i) (selected ++ [item])).length ≤ k
        refine ih _ _ ?_
        rw [List.length_append, List.length_singleton]
        exact hcond.1
    · rw [if_neg hcond]; exact h

theorem headDominates_mmrSelect (candidates : List SearchResult) (k : ℕ) :
    headDominates (mmrSelect 0.7 candidates k) := by
  cases candidates with
  | nil =>
    show headDominates (mmrGo 0.7 k 0 [] [])
    rw [mmrGo]
    trivial
  | cons c cs =>
    show headDominates (mmrGo 0.7 k (cs.length + 1) (c :: cs) [])
    rw [mmrGo]
    by_cases hcond : ([] : List SearchResult).length < k ∧ (c :: cs) ≠ []
    · rw [if_pos hcond]
      cases hpb : pickBest (mmrValue 0.7 []) (c :: cs) with
      | none => exact absurd (pickBest_none _ _ hpb) (by simp)
      | some p =>
        obtain ⟨i, x⟩ := p
        obtain ⟨extra, heq, hsub⟩ := mmrGo_shape 0.7 k cs.length ((c :: cs).eraseIdx i) ([] ++ [x])
        show headDominates (mmrGo 0.7 k cs.length ((c :: cs).eraseIdx i) ([] ++ [x]))
        rw [heq]
        show ∀ z ∈ extra, z.score ≤ x.score
        intro z hz
        have hzmem : z ∈ (c :: cs).eraseIdx i := hsub.subset hz
        have hzmem2 : z ∈ c :: cs := (List.eraseIdx_sublist (c :: cs) i).subset hzmem
        have hle := pickBest_max (mmrValue 0.7 []) (c :: cs) i x hpb z hzmem2
        have hz0 : mmrValue 0.7 [] z = 0.7 * z.score := by
          unfold mmrValue redundancy
          rw [List.foldl_nil]
          ring
        have hx0 : mmrValue 0.7 [] x = 0.7 * x.score := by
          unfold mmrValue redundancy
          rw [List.foldl_nil]
          ring
        rw [hz0, hx0] at hle
        exact (mul_le_mul_left (by norm_num : (0 : ℝ) < 0.7)).mp hle
    · rw [if_neg hcond]
      trivial

theorem filter_length_mono (l : List SearchResult) (p q : SearchResult → Bool)
    (h : ∀ x ∈ l, p x = true → q x = true) :
    (l.filter p).length ≤ (l.filter q).length := by
  induction l with
  | nil => exact le_refl 0
  | cons a l ih =>
    have ih2 := ih (fun x hx hp => h x (List.mem_cons_of_mem a hx) hp)
    rw [List.filter_cons, List.filter_cons]
    by_cases hp : p a = true
    · rw [if_pos hp, if_pos (h a (List.mem_cons_self a l) hp)]
      exact Nat.succ_le_succ ih2
    · rw [if_neg hp]
      by_cases hq : q a = true
      · rw [if_pos hq]
        exact le_trans ih2 (Nat.le_succ _)
      · rw [if_neg hq]
        exact ih2

theorem filter_head_shape (a : SearchResult) (rest : List SearchResult)
    (hdom : ∀ x ∈ rest, x.score ≤ a.score) (t : ℝ) :
    (a :: rest).filter (fun r => decide (r.score ≥ t)) =
      if a.score ≥ t then a :: rest.filter (fun r => decide (r.score ≥ t)) else [] := by
  by_cases ha : a.score ≥ t
  · rw [if_pos ha, List.filter_cons, if_pos (decide_eq_true ha)]
  · rw [if_neg ha, List.filter_cons, if_neg (by simpa using ha)]
    refine List.filter_eq_nil_iff.mpr fun x hx => ?_
    simp only [decide_eq_true_eq]
    exact not_le.mpr (lt_of_le_of_lt (hdom x hx) (not_le.mp ha))

theorem resultFilter_count_mono (l : List SearchResult) (hdom : headDominates l)
    (t1 t2 : ℝ) (h12 : t1 ≤ t2) :
    (resultFilter l t2).length ≤ (resultFilter l t1).length := by
  cases l with
  | nil => exact le_refl 0
  | cons a rest =>
    have hdom2 : ∀ x ∈ rest, x.score ≤ a.score := hdom
    by_cases h2 : a.score ≥ t2
    · have h1 : a.score ≥ t1 := le_trans h12 h2
      have e2 := filter_head_shape a rest hdom2 t2
      rw [if_pos h2] at e2
      have e1 := filter_head_shape a rest hdom2 t1
      rw [if_pos h1] at e1
      simp only [resultFilter, e2, e1]
      rw [← e2, ← e1, List.filter_filter, List.filter_filter]
      refine filter_length_mono _ _ _ (fun x hx hpx => ?_)
      simp only [Bool.and_eq_true, decide_eq_true_eq] at hpx ⊢
      exact ⟨hpx.1, le_trans h12 hpx.2⟩
    · have e2 := filter_head_shape a rest hdom2 t2
      rw [if_neg h2] at e2
      simp only [resultFilter, e2]
      exact Nat.zero_le _

theorem headDominates_take (n : ℕ) (l : List SearchResult)
    (h : List.Pairwise scoreDescRel l) : headDominates (l.take n) :=
  headDominates_of_pairwise (h.sublist (List.take_sublist n l))

/-- C5: for a fixed embedding outcome, query, index, `topK` and reranker
flag, raising the threshold never increases the number of results: the
candidate list reaching the result filter does not depend on the threshold,
its first element carries the maximal score (by the descending sort in the
plain path, and because the first MMR pick maximises `0.7 * score` in the
reranked path), so both filter passes keep a subset that only shrinks as the
threshold grows. -/
theorem c5_threshold_monotonicity (embedOutcome : Except String (List Vec)) (query : String)
    (index : VectorIndex) (topK : ℕ) (useReranker : Bool) (t1 t2 : ℝ) (h : t1 ≤ t2) :
    resultCount (search embedOutcome query index topK t2 useReranker)
      ≤ resultCount (search embedOutcome query index topK t1 useReranker) := by
  unfold search
  by_cases hempty : index.chunks.isEmpty = true
  · rw [if_pos hempty, if_pos hempty]
  · rw [if_neg hempty, if_neg hempty]
    cases embedOutcome with
    | error e => exact le_refl 0
    | ok embeds =>
      cases embeds with
      | nil => exact le_refl 0
      | cons qv rest =>
        show (searchPipe qv query index topK t2 useReranker).length
          ≤ (searchPipe qv query index topK t1 useReranker).length
        simp only [searchPipe]
        refine resultFilter_count_mono _ ?_ t1 t2 h
        by_cases hr : useReranker = true
        · rw [if_pos hr]
          exact headDominates_mmrSelect _ _
        · rw [if_neg hr]
          exact headDominates_take _ _ (sorted_allResultsOf qv query index)

/-- C5 witness: the monotonicity instance at concrete thresholds. -/
theorem c5_threshold_monotonicity_witness :
    (0.1 : ℝ) ≤ 0.2 ∧
    resultCount (search (Except.ok [[1]]) "q" exIndex1 3 0.2 false)
      ≤ resultCount (search (Except.ok [[1]]) "q" exIndex1 3 0.1 false) :=
  ⟨by norm_num,
   c5_threshold_monotonicity (Except.ok [[1]]) "q" exIndex1 3 false 0.1 0.2 (by norm_num)⟩

/-! ### Claim C10: result count bound and chunk provenance -/

theorem resultFilter_sublist (l : List SearchResult) (t : ℝ) :
    List.Sublist (resultFilter l t) l := by
  simp only [resultFilter]
  rcases hE : l.filter (fun r => decide (r.score ≥ t)) with _ | ⟨b, tl⟩
  · simp only [hE]
    exact List.nil_sublist l
  · simp only [hE]
    have h1 : List.Sublist
        ((b :: tl).filter (fun r => decide (r.score ≥ b.score * 0.85))) (b :: tl) :=
      List.filter_sublist _
    have h2 : List.Sublist (b :: tl) l := by
      rw [← hE]
      exact List.filter_sublist l
    exact h1.trans h2

theorem searchPipe_output (qv : Vec) (query : String) (index : VectorIndex)
    (topK : ℕ) (threshold : ℝ) (useReranker : Bool) :
    (searchPipe qv query index topK threshold useReranker).length ≤ topK ∧
    List.Subperm ((searchPipe qv query index topK threshold useReranker).map SearchResult.chunk)
      index.chunks := by
  simp only [searchPipe]
  set L := (if useReranker = true
      then mmrSelect 0.7 ((allResultsOf qv query index).take (topK * 3)) topK
      else (allResultsOf qv query index).take topK) with hL
  have hsub : List.Sublist (resultFilter L threshold) L := resultFilter_sublist L threshold
  have hLlen : L.length ≤ topK := by
    rw [hL]
    by_cases hr : useReranker = true
    · rw [if_pos hr]
      exact mmrGo_length 0.7 topK _ _ [] (Nat.zero_le _)
    · rw [if_neg hr]
      rw [List.length_take]
      exact min_le_left _ _
  have hLsub : List.Subperm L (allResultsOf qv query index) := by
    rw [hL]
    by_cases hr : useReranker = true
    · rw [if_pos hr]
      obtain ⟨extra, heq, hsub2⟩ := mmrGo_shape 0.7 topK
        ((allResultsOf qv query index).take (topK * 3)).length
        ((allResultsOf qv query index).take (topK * 3)) []
      have heq2 : mmrSelect 0.7 ((allResultsOf qv query index).take (topK * 3)) topK
          = extra := heq
      rw [heq2]
      exact hsub2.trans (List.take_sublist _ _).subperm
    · rw [if_neg hr]
      exact (List.take_sublist _ _).subperm
  have hmapeq : (index.chunks.map (scoreChunk qv query)).map SearchResult.chunk
      = index.chunks := by
    rw [List.map_map]
    have hcomp : SearchResult.chunk ∘ scoreChunk qv query = id := funext fun c => rfl
    rw [hcomp, List.map_id]
  constructor
  · exact le_trans hsub.length_le hLlen
  · have c1 : List.Sublist ((resultFilter L threshold).map SearchResult.chunk)
        (L.map SearchResult.chunk) := hsub.map _
    have c2 : List.Subperm (L.map SearchResult.chunk)
        ((allResultsOf qv query index).map SearchResult.chunk) := subperm_map _ hLsub
    have c3 : List.Perm ((allResultsOf qv query index).map SearchResult.chunk)
        index.chunks := by
      rw [← hmapeq]
      exact (List.perm_insertionSort scoreDescRel _).map _
    exact (c1.subperm.trans c2).trans c3.subperm

/-- C10: whenever `search` resolves with a result list, that list has at most
`topK` entries and its chunks are drawn from `index.chunks` without reuse
(the mapped chunk list is a sub-permutation of the index's chunk list). -/
theorem c10_topk_and_provenance (embedOutcome : Except String (List Vec)) (query : String)
    (index : VectorIndex) (topK : ℕ) (threshold : ℝ) (useReranker : Bool)
    (rs : List SearchResult)
    (h : search embedOutcome query index topK threshold useReranker = Except.ok rs) :
    rs.length ≤ topK ∧ List.Subperm (rs.map SearchResult.chunk) index.chunks := by
  unfold search at h
  by_cases hempty : index.chunks.isEmpty = true
  · rw [if_pos hempty] at h
    have hrs : rs = [] := (Except.ok.inj h).symm
    subst hrs
    exact ⟨Nat.zero_le _, List.nil_subperm⟩
  · rw [if_neg hempty] at h
    cases embedOutcome with
    | error e => exact Except.noConfusion h
    | ok embeds =>
      cases embeds with
      | nil =>
        have hrs : rs = [] := (Except.ok.inj h).symm
        subst hrs
        exact ⟨Nat.zero_le _, List.nil_subperm⟩
      | cons qv rest =>
        have hrs : rs = searchPipe qv query index topK threshold useReranker :=
          (Except.ok.inj h).symm
        subst hrs
        exact searchPipe_output qv query index topK threshold useReranker

/-- The empty index. -/
noncomputable def exIndexEmpty : VectorIndex :=
  { version := 1, documents := [], chunks := [] }

/-- C10 witness: the bound and provenance at a concrete search outcome. -/
theorem c10_topk_and_provenance_witness :
    search (Except.ok [[1]]) "q" exIndexEmpty 3 0.1 false = Except.ok [] ∧
    (([] : List SearchResult).length ≤ 3 ∧
     List.Subperm (([] : List SearchResult).map SearchResult.chunk) exIndexEmpty.chunks) :=
  have h : search (Except.ok [[1]]) "q" exIndexEmpty 3 0.1 false = Except.ok [] := rfl
  ⟨h, c10_topk_and_provenance (Except.ok [[1]]) "q" exIndexEmpty 3 0.1 false [] h⟩

end Legion
